import Mathlib

/-!
Verification of `src/romanian_preprocessor.py` (Romanian text preprocessor
for Chatterbox TTS finetuning).

Strings are modelled as `List Char` (one entry per Unicode code point, as in
Python). The two module-level substitution tables `PHONEME_MAP` and
`ASCII_MAP` are modelled as association lists, and the Python dict lookup
`ch in char_map` / `char_map[ch]` as `List.lookup`.

Two Python standard-library calls are modelled by finite tables restricted
to the repertoire this module manipulates (Romanian letters, combining
marks, ASCII):

* `str.lower` is modelled by `toLowerPy`, a table of simple one-to-one
  lowercase mappings (A–Z plus the Romanian uppercase letters appearing in
  the maps), identity elsewhere;
* `unicodedata.normalize('NFC', ...)` is modelled by `nfc`, a left-to-right
  canonical-composition pass over the pairs (base, combining mark) that
  compose into the precomposed Romanian letters, per the Unicode canonical
  decompositions (e.g. U+0103 ă = U+0061 a + U+0306 combining breve,
  U+0219 ș = U+0073 s + U+0326 combining comma below).
-/

abbrev Str := List Char

/-- PHONEME_MAP from the source: ș/Ș/ş/Ş → "sh", ț/Ț/ţ/Ţ → "ts",
uppercase Ă/Â/Î → lowercase ă/â/î. -/
def PHONEME_MAP : List (Char × Str) :=
  [ ('ș', "sh".data),  -- ș U+0219
    ('Ș', "sh".data),  -- Ș U+0218
    ('ş', "sh".data),  -- ş U+015F
    ('Ş', "sh".data),  -- Ş U+015E
    ('ț', "ts".data),  -- ț U+021B
    ('Ț', "ts".data),  -- Ț U+021A
    ('ţ', "ts".data),  -- ţ U+0163
    ('Ţ', "ts".data),  -- Ţ U+0162
    ('Ă', "ă".data),  -- Ă → ă
    ('Â', "â".data),  -- Â → â
    ('Î', "î".data) ] -- Î → î

/-- ASCII_MAP from the source: additionally collapses ă/â/î (both cases)
to plain a/a/i. -/
def ASCII_MAP : List (Char × Str) :=
  [ ('ș', "sh".data), ('Ș', "sh".data),
    ('ş', "sh".data), ('Ş', "sh".data),
    ('ț', "ts".data), ('Ț', "ts".data),
    ('ţ', "ts".data), ('Ţ', "ts".data),
    ('ă', "a".data), ('Ă', "a".data),
    ('â', "a".data), ('Â', "a".data),
    ('î', "i".data), ('Î', "i".data) ]

/-- Simple lowercase mappings of Python `str.lower`, restricted to the
letters this module manipulates: ASCII A–Z and the uppercase Romanian
letters Ă Â Î Ș Ț Ş Ţ. All other characters are left fixed by `toLowerPy`. -/
def LOWER_TABLE : List (Char × Char) :=
  [ ('A','a'), ('B','b'), ('C','c'), ('D','d'), ('E','e'), ('F','f'),
    ('G','g'), ('H','h'), ('I','i'), ('J','j'), ('K','k'), ('L','l'),
    ('M','m'), ('N','n'), ('O','o'), ('P','p'), ('Q','q'), ('R','r'),
    ('S','s'), ('T','t'), ('U','u'), ('V','v'), ('W','w'), ('X','x'),
    ('Y','y'), ('Z','z'),
    ('Ă','ă'),  -- Ă → ă
    ('Â','â'),  -- Â → â
    ('Î','î'),  -- Î → î
    ('Ș','ș'),  -- Ș → ș
    ('Ț','ț'),  -- Ț → ț
    ('Ş','ş'),  -- Ş → ş
    ('Ţ','ţ') ] -- Ţ → ţ

/-- Model of Python `str.lower` on one code point (identity outside
`LOWER_TABLE`). -/
def toLowerPy (c : Char) : Char := (LOWER_TABLE.lookup c).getD c

/-- Unicode canonical compositions (base, combining mark) → precomposed
character, for the precomposed Romanian letters: combining breve U+0306,
combining circumflex U+0302, combining comma below U+0326, combining
cedilla U+0327. These are the Unicode canonical decomposition pairs of the
corresponding precomposed code points. -/
def COMPOSE_TABLE : List ((Char × Char) × Char) :=
  [ (('a','̆'), 'ă'), (('A','̆'), 'Ă'),
    (('a','̂'), 'â'), (('A','̂'), 'Â'),
    (('i','̂'), 'î'), (('I','̂'), 'Î'),
    (('s','̦'), 'ș'), (('S','̦'), 'Ș'),
    (('t','̦'), 'ț'), (('T','̦'), 'Ț'),
    (('s','̧'), 'ş'), (('S','̧'), 'Ş'),
    (('t','̧'), 'ţ'), (('T','̧'), 'Ţ') ]

/-- Model of `unicodedata.normalize('NFC', text)` restricted to the
repertoire above: a single left-to-right pass replacing each adjacent pair
found in `COMPOSE_TABLE` by its precomposed character. (None of the
precomposed characters composes further with a following mark in this
repertoire, so no re-scan of the composed character is needed.) The model
is partial: real NFC also rewrites singleton canonical decompositions
(U+212B ANGSTROM SIGN → U+00C5, U+2126 OHM SIGN → U+03A9) and composes
pairs outside these 14 — on all such inputs this model is the identity.
Theorems that rely on NFC being the identity therefore hypothesize inputs
over the `isSafeChar` repertoire, where the real function and the model
provably coincide (both are the identity there). -/
def nfc : Str → Str
  | [] => []
  | [c] => [c]
  | c1 :: c2 :: rest =>
    match COMPOSE_TABLE.lookup (c1, c2) with
    | some c => c :: nfc rest
    | none => c1 :: nfc (c2 :: rest)

/-- One iteration of the character-mapping loop body of
`preprocess_romanian`: `result.append(char_map[ch])` when `ch in char_map`,
else `result.append(ch)`. -/
def mapChar (char_map : List (Char × Str)) (c : Char) : Str :=
  match char_map.lookup c with
  | some r => r
  | none => [c]

/-- Map selection line of preprocess_romanian:
`char_map = PHONEME_MAP if mode == "phoneme" else ASCII_MAP`. -/
def selectMap (mode : String) : List (Char × Str) :=
  if mode = "phoneme" then PHONEME_MAP else ASCII_MAP

/-- preprocess_romanian from the source: empty-string short circuit, map
selection by `mode == "phoneme"`, character mapping, optional lowercasing,
NFC normalization. -/
def preprocess_romanian (text : Str) (lowercase : Bool := true)
    (mode : String := "phoneme") : Str :=
  if text = [] then text
  else
    let char_map := selectMap mode
    let mapped := (text.map (mapChar char_map)).flatten
    let lowered := if lowercase then mapped.map toLowerPy else mapped
    nfc lowered

/-- C1: the character-mapping step on "Știință și înțelepciune." (phoneme
mode, lowercasing on) does NOT produce the string
"shtiiintsa shi intseleptsiune." claimed by the spec (and by the source
docstring): phoneme mode preserves ă and î, so the actual output is
"shtiintsă shi întselepciune.". -/
theorem c1_counterexample :
    preprocess_romanian "Știință și înțelepciune.".data
      true "phoneme"
      ≠ "shtiiintsa shi intseleptsiune.".data := by decide

/-- C1 amended: in phoneme mode with lowercasing, the character-mapping
step applied to "Știință și înțelepciune." produces exactly
"shtiintsă shi întselepciune." (ș→sh, ț→ts, lowercased, ă and î
preserved). -/
theorem c1_amended :
    preprocess_romanian "Știință și înțelepciune.".data
      true "phoneme"
      = "shtiintsă shi întselepciune.".data := by decide

/-- Whitespace as recognized by Python `str.split()` (the characters for
which `str.isspace` holds): ASCII whitespace and control separators, plus
the Unicode space separators. -/
def pyIsSpace (c : Char) : Bool :=
  c == ' ' || c == '\t' || c == '\n' || c == '\x0b' || c == '\x0c' ||
  c == '\r' || c == '\x1c' || c == '\x1d' || c == '\x1e' || c == '\x1f' ||
  c == '\x85' || c == '\xa0' || c == '\u1680' ||
  ('\u2000' ≤ c && c ≤ '\u200a') ||
  c == '\u2028' || c == '\u2029' || c == '\u202f' || c == '\u205f' ||
  c == '\u3000'

/-- Accumulator worker for `pySplit`: cuts the string at every whitespace
character, keeping the (possibly empty) chunks between cuts. -/
def pySplitAux : Str → Str → List Str
  | [], acc => [acc.reverse]
  | c :: rest, acc =>
    if pyIsSpace c then acc.reverse :: pySplitAux rest []
    else pySplitAux rest (c :: acc)

/-- Model of Python `text.split()`: maximal runs of non-whitespace
characters, in order; whitespace-only input gives the empty list. -/
def pySplit (s : Str) : List Str := (pySplitAux s []).filter (fun t => t ≠ [])

/-- Model of Python `text.replace(pat, rep)` for a nonempty pattern:
left-to-right, non-overlapping occurrences of `pat` are replaced by `rep`,
and scanning resumes after the replaced segment. (For an empty `pat` this
model is the identity; every pattern in `punc_to_replace` is nonempty.) -/
def replaceSub (pat rep : Str) : Str → Str
  | [] => []
  | c :: rest =>
    if h : pat ≠ [] ∧ pat.isPrefixOf (c :: rest) then
      rep ++ replaceSub pat rep ((c :: rest).drop pat.length)
    else
      c :: replaceSub pat rep rest
termination_by s => s.length
decreasing_by
  · have : 1 ≤ pat.length := List.length_pos.mpr h.1
    simp [List.length_drop]
    omega
  · simp

/-- punc_to_replace from the source, in order: ellipses and colon and
semicolon to comma forms, dashes standardized, curly and Romanian quotes
to straight quotes. -/
def punc_to_replace : List (Str × Str) :=
  [ ("...".data, ", ".data),
    ("…".data, ", ".data),
    (":".data, ",".data),
    (" - ".data, ", ".data),
    (";".data, ", ".data),
    ("—".data, "-".data),
    ("–".data, "-".data),
    (" ,".data, ",".data),
    ("“".data, "\"".data),
    ("”".data, "\"".data),
    ("‘".data, "\x27".data),
    ("’".data, "\x27".data),
    ("„".data, "\"".data),
    ("‟".data, "\"".data) ]

/-- sentence_enders from the source. -/
def sentence_enders : List Str :=
  [".".data, "!".data, "?".data, "-".data, ",".data]

/-- Fallback sentence returned by `punc_norm_romanian` on empty input. -/
def fallbackText : Str := "you need to add some text for me to talk.".data

/-- Model of Python `text.rstrip(" ")`: remove trailing space characters. -/
def rstripSpaces (s : Str) : Str :=
  (s.reverse.dropWhile (fun c => c == ' ')).reverse

/-- punc_norm_romanian from the source: empty-input fallback, whitespace
collapse via split and join, ordered literal substring replacements,
trailing-space strip, and a final "." when the string does not already end
in a sentence ender. -/
def punc_norm_romanian (text : Str) : Str :=
  if text.length = 0 then fallbackText
  else
    let t1 := List.intercalate " ".data (pySplit text)
    let t2 := punc_to_replace.foldl (fun acc pr => replaceSub pr.1 pr.2 acc) t1
    let t3 := rstripSpaces t2
    if sentence_enders.any (fun p => p.isSuffixOf t3) then t3 else t3 ++ ['.']

/-- Helper: if the one-character string [c] is a suffix of t, the last
character of t is c. -/
theorem getLast?_of_single_suffix (c : Char) (t : Str)
    (h : List.isSuffixOf [c] t = true) : t.getLast? = some c := by
  obtain ⟨u, hu⟩ := List.isSuffixOf_iff_suffix.mp h
  rw [← hu]
  exact List.getLast?_concat u

/-- Helper: the final step of punc_norm_romanian yields a string whose
last character is a sentence ender. -/
theorem final_step_ends_with_ender (t : Str) :
    (if sentence_enders.any (fun p => p.isSuffixOf t) then t
     else t ++ ['.']).getLast?
      ∈ [some '.', some '!', some '?', some '-', some ','] := by
  by_cases hc : sentence_enders.any (fun p => p.isSuffixOf t) = true
  · rw [if_pos hc]
    simp only [sentence_enders, List.any_cons, List.any_nil, Bool.or_eq_true,
      Bool.false_eq_true, or_false] at hc
    rcases hc with h | h | h | h | h <;>
      simp [getLast?_of_single_suffix _ _ h]
  · rw [if_neg hc]
    simp [List.getLast?_concat]

/-- C3: punc_norm_romanian always returns a string whose last character is
one of ".", "!", "?", "-", ",": the fallback sentence ends in ".", a
terminal "." is appended whenever the trimmed string does not already end
in a sentence ender. -/
theorem punc_norm_ends_with_ender (s : Str) :
    (punc_norm_romanian s).getLast?
      ∈ [some '.', some '!', some '?', some '-', some ','] := by
  unfold punc_norm_romanian
  by_cases h0 : s.length = 0
  · rw [if_pos h0]
    decide
  · rw [if_neg h0]
    exact final_step_ends_with_ender _

/-- C4: punc_norm_romanian on the empty string returns the fixed fallback
sentence "you need to add some text for me to talk.", which is not the
empty string. -/
theorem punc_norm_empty_fallback :
    punc_norm_romanian [] = "you need to add some text for me to talk.".data
      ∧ punc_norm_romanian [] ≠ [] := by
  constructor
  · rfl
  · decide

/-- Helper: splitting an all-whitespace string yields only empty chunks. -/
theorem pySplitAux_allspace (s : Str) (hsp : ∀ c ∈ s, pyIsSpace c = true) :
    ∀ t ∈ pySplitAux s [], t = [] := by
  induction s with
  | nil => intro t ht; simpa [pySplitAux] using ht
  | cons c rest ih =>
    intro t ht
    have hc : pyIsSpace c = true := hsp c (List.mem_cons_self c rest)
    rw [pySplitAux, if_pos hc] at ht
    rcases List.mem_cons.mp ht with h | h
    · simpa using h
    · exact ih (fun d hd => hsp d (List.mem_cons_of_mem c hd)) t h

/-- Helper: Python split() of an all-whitespace string is the empty list. -/
theorem pySplit_allspace (s : Str) (hsp : ∀ c ∈ s, pyIsSpace c = true) :
    pySplit s = [] := by
  unfold pySplit
  rw [List.filter_eq_nil_iff]
  intro t ht
  simp [pySplitAux_allspace s hsp t ht]

/-- Helper: replaceSub on the empty string is the empty string. -/
theorem replaceSub_nil (pat rep : Str) : replaceSub pat rep [] = [] := by
  rw [replaceSub]

/-- Helper: the replacement fold of punc_norm_romanian maps the empty
string to the empty string. -/
theorem foldl_replace_nil (l : List (Str × Str)) :
    List.foldl (fun acc pr => replaceSub pr.1 pr.2 acc) [] l = [] := by
  induction l with
  | nil => rfl
  | cons a l ih => rw [List.foldl_cons, replaceSub_nil]; exact ih

/-- C10: on a non-empty all-whitespace input, punc_norm_romanian does not
return the empty-input fallback sentence but exactly the string ".":
whitespace collapse yields the empty string, no substitution applies, and
a terminal period is appended. -/
theorem punc_norm_whitespace_only (s : Str) (hne : s ≠ [])
    (hsp : ∀ c ∈ s, pyIsSpace c = true) :
    punc_norm_romanian s = ['.'] ∧ punc_norm_romanian s ≠ fallbackText := by
  have hlen : ¬ s.length = 0 := by
    simpa [List.length_eq_zero] using hne
  have key : punc_norm_romanian s = ['.'] := by
    unfold punc_norm_romanian
    rw [if_neg hlen]
    dsimp only
    rw [pySplit_allspace s hsp]
    have h2 : List.intercalate " ".data ([] : List Str) = [] := by
      simp [List.intercalate]
    rw [h2, foldl_replace_nil]
    decide
  refine ⟨key, ?_⟩
  rw [key]
  decide

/-- Witness for C10 at the concrete whitespace-only input " ". -/
theorem punc_norm_whitespace_only_witness :
    punc_norm_romanian [' '] = ['.'] ∧ punc_norm_romanian [' '] ≠ fallbackText :=
  punc_norm_whitespace_only [' '] (by decide) (by decide)

/-- C9: for non-empty text, any mode string other than "phoneme"
(for example "Phoneme", "" or the documented "ascii") silently selects the
ASCII map, so preprocess_romanian behaves exactly as mode "ascii"; being a
total function, it raises no error. -/
theorem mode_fallback_ascii (text : Str) (lowercase : Bool) (mode : String)
    (hne : text ≠ []) (hm : mode ≠ "phoneme") :
    preprocess_romanian text lowercase mode
      = preprocess_romanian text lowercase "ascii" := by
  have h2 : ¬ (("ascii" : String) = "phoneme") := by decide
  simp only [preprocess_romanian, selectMap, if_neg hne, if_neg hm, if_neg h2]

/-- Witness for C9 at text "a" and the unrecognized mode string
"Phoneme". -/
theorem mode_fallback_ascii_witness :
    preprocess_romanian ['a'] true "Phoneme"
      = preprocess_romanian ['a'] true "ascii" :=
  mode_fallback_ascii ['a'] true "Phoneme" (by decide) (by decide)

/-- Combining marks appearing in `COMPOSE_TABLE`: breve, circumflex,
comma below, cedilla. This is a strict subset of Unicode's combining
marks; real NFC also composes pairs with marks outside this table (and
rewrites singleton canonical decompositions such as U+212B ANGSTROM SIGN
→ U+00C5 even with no mark present), cases on which the `nfc` model acts
as the identity. Theorems whose conclusions need NFC to act as the
identity therefore restrict their inputs to `isSafeChar` characters, on
which the real normalization and the model agree; the `isComb`-based
hypotheses are used only where the property also holds of the real
function on that wider domain. -/
def isComb (c : Char) : Bool :=
  c == '̆' || c == '̂' || c == '̦' || c == '̧'

/-- Characters of the preprocessor's intended repertoire on which real
NFC is the identity, exactly as the `nfc` model: ASCII code points
(U+0000–U+007F, all NFC-inert, never part of a canonical composition
pair among themselves) and the precomposed Romanian letters of the two
maps. No character of this set has a canonical decomposition of its own,
is a combining mark, or can start or extend a canonical composition with
another character of the set. -/
def isSafeChar (c : Char) : Bool :=
  c.val < 128
    || ['ă', 'â', 'î', 'ș', 'ț', 'ş', 'ţ',
        'Ă', 'Â', 'Î', 'Ș', 'Ț', 'Ş', 'Ţ'].contains c

/-- Helper: safe characters are not combining marks. -/
theorem safe_no_comb (c : Char) (h : isSafeChar c = true) :
    isComb c = false := by
  cases hc : isComb c with
  | false => rfl
  | true =>
    exfalso
    have hd : ((c = '̆' ∨ c = '̂') ∨ c = '̦') ∨ c = '̧' := by
      simpa [isComb] using hc
    rcases hd with ((rfl | rfl) | rfl) | rfl <;> exact absurd h (by decide)

/-- Helper: a successful association-list lookup comes from a member of
the list. -/
theorem mem_of_lookup {α β : Type} [BEq α] [LawfulBEq α]
    (l : List (α × β)) (a : α) (b : β) (h : l.lookup a = some b) :
    (a, b) ∈ l := by
  induction l with
  | nil => simp [List.lookup] at h
  | cons p l ih =>
    rw [List.lookup] at h
    by_cases hb : (a == p.1) = true
    · rw [hb] at h
      have ha : a = p.1 := by exact eq_of_beq hb
      have hbv : b = p.2 := by
        simpa using h.symm
      rw [ha, hbv]
      exact List.mem_cons_self _ _
    · rw [Bool.eq_false_iff.mpr hb] at h
      exact List.mem_cons_of_mem _ (ih h)

/-- Helper: every pair of `COMPOSE_TABLE` has a combining mark as its
second key component. -/
theorem compose_table_comb :
    ∀ p ∈ COMPOSE_TABLE, isComb p.1.2 = true := by decide

/-- Helper: `nfc` is the identity on strings containing no combining
mark. -/
theorem nfc_no_comb (s : Str) (h : ∀ c ∈ s, isComb c = false) :
    nfc s = s := by
  induction s with
  | nil => rfl
  | cons c1 rest ih =>
    cases rest with
    | nil => rfl
    | cons c2 rest2 =>
      cases hcl : COMPOSE_TABLE.lookup (c1, c2) with
      | some c =>
        exfalso
        have hmem : ((c1, c2), c) ∈ COMPOSE_TABLE :=
          mem_of_lookup _ _ _ hcl
        have := compose_table_comb _ hmem
        have h2 := h c2 (List.mem_cons_of_mem _ (List.mem_cons_self _ _))
        simp_all
      | none =>
        simp only [nfc, hcl]
        rw [ih (fun c hc => h c (List.mem_cons_of_mem _ hc))]

/-- Helper: the replacement strings of both character maps contain no
combining mark. -/
theorem selectMap_images_no_comb (mode : String) :
    ∀ p ∈ selectMap mode, ∀ c ∈ p.2, isComb c = false := by
  rcases eq_or_ne mode "phoneme" with h | h
  · rw [selectMap, if_pos h]; decide
  · rw [selectMap, if_neg h]; decide

/-- Helper: character mapping preserves the absence of combining marks. -/
theorem mapped_no_comb (s : Str) (mode : String)
    (hcomb : ∀ c ∈ s, isComb c = false) :
    ∀ c ∈ (s.map (mapChar (selectMap mode))).flatten, isComb c = false := by
  intro c hc
  rw [List.mem_flatten] at hc
  obtain ⟨t, ht, hct⟩ := hc
  rw [List.mem_map] at ht
  obtain ⟨d, hd, rfl⟩ := ht
  revert hct
  unfold mapChar
  cases hl : (selectMap mode).lookup d with
  | none =>
    intro hct
    have : c = d := by simpa using hct
    rw [this]
    exact hcomb d hd
  | some r =>
    intro hct
    exact selectMap_images_no_comb mode _ (mem_of_lookup _ _ _ hl) c hct

/-- C2 counterexample: with lowercasing disabled, the NFC normalization
step can still rewrite characters outside the map domain. Neither the
letter a nor the combining breve U+0306 is a key of ASCII_MAP, yet on the
input [a, U+0306] the output is the single precomposed character ă: the
non-key character a does not appear unchanged in the output. -/
theorem map_nonkey_identity_cex :
    (ASCII_MAP.lookup 'a').isNone = true
    ∧ (ASCII_MAP.lookup '̆').isNone = true
    ∧ preprocess_romanian ['a', '̆'] false "ascii" = ['ă']
    ∧ 'a' ∉ preprocess_romanian ['a', '̆'] false "ascii" := by decide

/-- C2 amended: with lowercasing disabled, on inputs over the
preprocessor's intended repertoire (ASCII characters and the precomposed
Romanian letters, see `isSafeChar`) the character-mapping operation is
exactly the in-place per-character substitution, and every character
outside the selected map domain is kept unchanged by that substitution.
The restriction is forced by the NFC step, which outside this repertoire
can rewrite non-key characters: decomposed pairs such as the
counterexample [a, U+0306], and in the real normalization also singleton
canonical decompositions (U+212B → U+00C5) and compositions with marks
beyond `COMPOSE_TABLE`; on `isSafeChar` strings, real NFC and the model
are both the identity. -/
theorem map_nonkey_identity (s : Str) (mode : String) (c : Char)
    (hsafe : ∀ d ∈ s, isSafeChar d = true)
    (hc : (selectMap mode).lookup c = none) :
    preprocess_romanian s false mode
        = (s.map (mapChar (selectMap mode))).flatten
      ∧ mapChar (selectMap mode) c = [c] := by
  constructor
  · by_cases hs : s = []
    · rw [hs]; rfl
    · simp only [preprocess_romanian, if_neg hs, Bool.false_eq_true,
        if_false]
      exact nfc_no_comb _
        (mapped_no_comb s mode (fun d hd => safe_no_comb d (hsafe d hd)))
  · simp [mapChar, hc]

/-- Witness for C2 amended at the input "ța" (phoneme mode) and the
non-key character x. -/
theorem map_nonkey_identity_witness :
    preprocess_romanian "ța".data false "phoneme"
        = (("ța".data).map (mapChar (selectMap "phoneme"))).flatten
      ∧ mapChar (selectMap "phoneme") 'x' = ['x'] :=
  map_nonkey_identity "ța".data "phoneme" 'x' (by decide) (by decide)

/-- Helper: toLowerPy either fixes a character or maps it along a pair of
LOWER_TABLE. -/
theorem toLowerPy_cases (c : Char) :
    toLowerPy c = c ∨ (c, toLowerPy c) ∈ LOWER_TABLE := by
  cases hl : LOWER_TABLE.lookup c with
  | none => left; simp [toLowerPy, hl]
  | some d =>
    right
    have hm := mem_of_lookup _ _ _ hl
    simpa [toLowerPy, hl] using hm

/-- Helper: lowercase images are themselves fixed by toLowerPy. -/
theorem lower_images_fixed :
    ∀ p ∈ LOWER_TABLE, LOWER_TABLE.lookup p.2 = none := by decide

/-- Helper: lowercase images are not combining marks. -/
theorem lower_images_no_comb :
    ∀ p ∈ LOWER_TABLE, isComb p.2 = false := by decide

/-- Helper: lowercasing a character that is not a key of the selected map
never produces a key of that map (every lowercase form of a map key is
itself a map key or the source character already was one). -/
theorem lower_no_new_key (mode : String) :
    ∀ p ∈ LOWER_TABLE,
      ((selectMap mode).lookup p.1).isSome = true
        ∨ (selectMap mode).lookup p.2 = none := by
  rcases eq_or_ne mode "phoneme" with h | h
  · rw [selectMap, if_pos h]; decide
  · rw [selectMap, if_neg h]; decide

/-- Helper: toLowerPy is idempotent. -/
theorem toLowerPy_idem (c : Char) : toLowerPy (toLowerPy c) = toLowerPy c := by
  rcases toLowerPy_cases c with he | hm
  · rw [he]; exact he
  · have h2 := lower_images_fixed _ hm
    rw [show toLowerPy (toLowerPy c)
          = (LOWER_TABLE.lookup (toLowerPy c)).getD (toLowerPy c) from rfl, h2]
    rfl

/-- Helper: toLowerPy preserves the absence of combining marks. -/
theorem toLowerPy_no_comb (c : Char) (h : isComb c = false) :
    isComb (toLowerPy c) = false := by
  rcases toLowerPy_cases c with he | hm
  · rw [he]; exact h
  · exact lower_images_no_comb _ hm

/-- Helper: lowercasing preserves being outside the selected map domain. -/
theorem lookup_lower_none (mode : String) (c : Char)
    (h : (selectMap mode).lookup c = none) :
    (selectMap mode).lookup (toLowerPy c) = none := by
  rcases toLowerPy_cases c with he | hm
  · rw [he]; exact h
  · rcases lower_no_new_key mode _ hm with h1 | h2
    · rw [h] at h1; simp at h1
    · exact h2

/-- Helper: the replacement strings of both maps consist of characters
that are outside the same map domain, fixed by toLowerPy, and not
combining marks. -/
theorem selectMap_images_good (mode : String) :
    ∀ p ∈ selectMap mode, ∀ c ∈ p.2,
      (selectMap mode).lookup c = none
        ∧ toLowerPy c = c ∧ isComb c = false := by
  rcases eq_or_ne mode "phoneme" with h | h
  · rw [selectMap, if_pos h]; decide
  · rw [selectMap, if_neg h]; decide

/-- Helper: on an input without combining marks, the full preprocessing
(with lowercasing) produces only characters that are outside the selected
map domain, lowercase-fixed, and not combining marks. -/
theorem preprocess_output_good (s : Str) (mode : String)
    (hcomb : ∀ c ∈ s, isComb c = false) :
    ∀ c ∈ preprocess_romanian s true mode,
      (selectMap mode).lookup c = none
        ∧ toLowerPy c = c ∧ isComb c = false := by
  by_cases hs : s = []
  · subst hs; intro c hc; simp [preprocess_romanian] at hc
  · have hout : preprocess_romanian s true mode
        = ((s.map (mapChar (selectMap mode))).flatten).map toLowerPy := by
      simp only [preprocess_romanian, if_neg hs, if_pos]
      refine nfc_no_comb _ ?_
      intro c hc
      rw [List.mem_map] at hc
      obtain ⟨e, he, rfl⟩ := hc
      exact toLowerPy_no_comb e (mapped_no_comb s mode hcomb e he)
    rw [hout]
    intro c hc
    rw [List.mem_map] at hc
    obtain ⟨e, he, rfl⟩ := hc
    rw [List.mem_flatten] at he
    obtain ⟨t, ht, het⟩ := he
    rw [List.mem_map] at ht
    obtain ⟨d, hd, rfl⟩ := ht
    revert het
    unfold mapChar
    cases hl : (selectMap mode).lookup d with
    | none =>
      intro het
      have hed : e = d := by simpa using het
      subst hed
      exact ⟨lookup_lower_none mode e hl, toLowerPy_idem e,
        toLowerPy_no_comb e (hcomb e hd)⟩
    | some r =>
      intro het
      have hg := selectMap_images_good mode _ (mem_of_lookup _ _ _ hl) e het
      rw [hg.2.1]
      exact hg

/-- Helper: character mapping is the identity on strings whose characters
are all outside the map domain. -/
theorem flatten_map_mapChar_id (cm : List (Char × Str)) (l : Str)
    (h : ∀ c ∈ l, cm.lookup c = none) :
    (l.map (mapChar cm)).flatten = l := by
  induction l with
  | nil => rfl
  | cons c t ih =>
    simp only [List.map_cons, List.flatten_cons]
    rw [show mapChar cm c = [c] by
      simp [mapChar, h c (List.mem_cons_self _ _)]]
    rw [ih (fun d hd => h d (List.mem_cons_of_mem _ hd))]
    rfl

/-- C5 counterexample: preprocess_romanian is not idempotent in general.
On the input [s, U+0326 combining comma below] (phoneme mode, lowercasing
on) the first pass NFC-composes the pair into the single character ș,
which the second pass then maps to "sh". -/
theorem preprocess_idempotent_cex :
    preprocess_romanian
        (preprocess_romanian ['s', '̦'] true "phoneme") true "phoneme"
      ≠ preprocess_romanian ['s', '̦'] true "phoneme" := by decide

/-- C5 amended: on inputs containing no combining mark, the
character-mapping operation (lowercasing enabled) is idempotent for every
mode; the restriction is forced by the counterexample above, where NFC
composition creates a fresh map key. -/
theorem preprocess_idempotent (s : Str) (mode : String)
    (hcomb : ∀ c ∈ s, isComb c = false) :
    preprocess_romanian (preprocess_romanian s true mode) true mode
      = preprocess_romanian s true mode := by
  have hgood := preprocess_output_good s mode hcomb
  generalize ho : preprocess_romanian s true mode = o at hgood ⊢
  by_cases hoe : o = []
  · rw [hoe]; rfl
  · have h1 : (o.map (mapChar (selectMap mode))).flatten = o :=
      flatten_map_mapChar_id _ _ (fun c hc => (hgood c hc).1)
    have h2 : o.map toLowerPy = o := by
      have := List.map_congr_left
        (fun c hc => ((hgood c hc).2.1 : toLowerPy c = c))
      simpa using this
    simp only [preprocess_romanian, if_neg hoe, if_pos]
    rw [h1, h2]
    exact nfc_no_comb _ (fun c hc => (hgood c hc).2.2)

/-- Witness for C5 amended at the concrete input "Țara mea." in phoneme
mode. -/
theorem preprocess_idempotent_witness :
    preprocess_romanian
        (preprocess_romanian "Țara mea.".data true "phoneme") true "phoneme"
      = preprocess_romanian "Țara mea.".data true "phoneme" :=
  preprocess_idempotent "Țara mea.".data "phoneme" (by decide)

/-- preprocess_and_normalize from the source: character mapping followed
by punctuation normalization. -/
def preprocess_and_normalize (text : Str) (lowercase : Bool := true)
    (mode : String := "phoneme") : Str :=
  punc_norm_romanian (preprocess_romanian text lowercase mode)

/-- C8: the full pipeline is deterministic: two runs on equal inputs,
equal modes and equal lowercase flags produce equal outputs (the pipeline
is a pure function of its arguments, with no external state in the
model). -/
theorem pipeline_deterministic (s1 s2 : Str) (l1 l2 : Bool)
    (m1 m2 : String) (hs : s1 = s2) (hl : l1 = l2) (hm : m1 = m2) :
    preprocess_and_normalize s1 l1 m1 = preprocess_and_normalize s2 l2 m2 := by
  rw [hs, hl, hm]

/-- Witness for C8: two runs on the input "a" in phoneme mode agree. -/
theorem pipeline_deterministic_witness :
    preprocess_and_normalize ['a'] true "phoneme"
      = preprocess_and_normalize ['a'] true "phoneme" :=
  pipeline_deterministic ['a'] ['a'] true true "phoneme" "phoneme"
    rfl rfl rfl

/-- String-level wrapper of preprocess_romanian, for the CSV fields. -/
def ppStr (s : String) (lowercase : Bool) (mode : String) : String :=
  String.mk (preprocess_romanian s.data lowercase mode)

/-- Per-record body of the preprocess_metadata_csv loop: rows with at
least 3 fields get fields 1 and 2 character-mapped, rows with exactly 2
fields get field 1 character-mapped, shorter rows pass through. -/
def transformRow (mode : String) (lowercase : Bool)
    (row : List String) : List String :=
  if 3 ≤ row.length then
    (row.set 1 (ppStr (row.getD 1 "") lowercase mode)).set 2
      (ppStr (row.getD 2 "") lowercase mode)
  else if 2 ≤ row.length then
    row.set 1 (ppStr (row.getD 1 "") lowercase mode)
  else row

/-- preprocess_metadata_csv from the source, modelled at the record level:
the pipe-delimited file is the list of its records (each a list of
fields); the function returns the records written to the output file, in
order, together with processed_count. -/
def preprocess_metadata_csv (mode : String) (lowercase : Bool)
    (rows : List (List String)) : List (List String) × Nat :=
  match rows with
  | [] => ([], 0)
  | row :: rest =>
    let prev := preprocess_metadata_csv mode lowercase rest
    (transformRow mode lowercase row :: prev.1, prev.2 + 1)

/-- Helper: preprocess_metadata_csv maps transformRow over the records and
counts them. -/
theorem metadata_csv_eq (mode : String) (lowercase : Bool)
    (rows : List (List String)) :
    preprocess_metadata_csv mode lowercase rows
      = (rows.map (transformRow mode lowercase), rows.length) := by
  induction rows with
  | nil => rfl
  | cons row rest ih => simp [preprocess_metadata_csv, ih]

/-- C6: the CSV preprocessing writes every record with field order and
count preserved; it transforms exactly fields 1 and 2 (records with at
least 3 fields) or exactly field 1 (records with exactly 2 fields)
through the character mapper preprocess_romanian alone — never the
punctuation normalizer — passes records with fewer than 2 fields through
unchanged, and returns the total number of records read, pass-through
records included. -/
theorem metadata_csv_spec (mode : String) (lowercase : Bool)
    (rows : List (List String)) (anyRow shortRow : List String)
    (hshort : shortRow.length < 2) (idv raw norm txt : String)
    (rest : List String) :
    (preprocess_metadata_csv mode lowercase rows).2 = rows.length
    ∧ (preprocess_metadata_csv mode lowercase rows).1
        = rows.map (transformRow mode lowercase)
    ∧ (transformRow mode lowercase anyRow).length = anyRow.length
    ∧ transformRow mode lowercase shortRow = shortRow
    ∧ transformRow mode lowercase [idv, txt]
        = [idv, ppStr txt lowercase mode]
    ∧ transformRow mode lowercase (idv :: raw :: norm :: rest)
        = idv :: ppStr raw lowercase mode :: ppStr norm lowercase mode :: rest := by
  refine ⟨?_, ?_, ?_, ?_, ?_, ?_⟩
  · rw [metadata_csv_eq]
  · rw [metadata_csv_eq]
  · unfold transformRow
    split
    · simp [List.length_set]
    · split
      · simp [List.length_set]
      · rfl
  · unfold transformRow
    rw [if_neg (by omega), if_neg (by omega)]
  · unfold transformRow
    rw [if_neg (by simp), if_pos (by simp)]
    rfl
  · unfold transformRow
    rw [if_pos (by simp)]
    simp [List.set]

/-- Witness for C6 at a concrete record list with a 3-field, a 2-field
and a 1-field record. -/
theorem metadata_csv_spec_witness :
    (preprocess_metadata_csv "phoneme" true
        [["001", "Bună ziua", "Bună ziua"], ["002", "Țara"], ["x"]]).2
        = ([["001", "Bună ziua", "Bună ziua"], ["002", "Țara"], ["x"]]
            : List (List String)).length
    ∧ (preprocess_metadata_csv "phoneme" true
        [["001", "Bună ziua", "Bună ziua"], ["002", "Țara"], ["x"]]).1
        = ([["001", "Bună ziua", "Bună ziua"], ["002", "Țara"], ["x"]]
            : List (List String)).map (transformRow "phoneme" true)
    ∧ (transformRow "phoneme" true ["001", "Bună ziua", "Bună ziua"]).length
        = (["001", "Bună ziua", "Bună ziua"] : List String).length
    ∧ transformRow "phoneme" true ["x"] = ["x"]
    ∧ transformRow "phoneme" true ["001", "Țara"]
        = ["001", ppStr "Țara" true "phoneme"]
    ∧ transformRow "phoneme" true ("001" :: "Bună ziua" :: "Bună ziua" :: [])
        = "001" :: ppStr "Bună ziua" true "phoneme"
            :: ppStr "Bună ziua" true "phoneme" :: [] :=
  metadata_csv_spec "phoneme" true
    [["001", "Bună ziua", "Bună ziua"], ["002", "Țara"], ["x"]]
    ["001", "Bună ziua", "Bună ziua"] ["x"] (by decide)
    "001" "Bună ziua" "Bună ziua" "Țara" []

/-- Insertion step of `sortChars`. -/
def insertChar (c : Char) : Str → Str
  | [] => [c]
  | d :: t => if c ≤ d then c :: d :: t else d :: insertChar c t

/-- Model of Python `sorted` on a list of characters (insertion sort by
code point). -/
def sortChars : Str → Str
  | [] => []
  | c :: t => insertChar c (sortChars t)

/-- Helper: membership in an insertion. -/
theorem mem_insertChar (a c : Char) (l : Str) :
    a ∈ insertChar c l ↔ a = c ∨ a ∈ l := by
  induction l with
  | nil => simp [insertChar]
  | cons d t ih =>
    by_cases h : c ≤ d
    · simp [insertChar, h]
    · simp [insertChar, h, ih]
      tauto

/-- Helper: sorting preserves membership. -/
theorem mem_sortChars (a : Char) (l : Str) :
    a ∈ sortChars l ↔ a ∈ l := by
  induction l with
  | nil => simp [sortChars]
  | cons c t ih => simp [sortChars, mem_insertChar, ih]

/-- Report returned by check_vocab_coverage: covered and missing as
sorted lists of characters, the coverage percentage and the number of
unique characters. -/
structure CoverageReport where
  covered : Str
  missing : Str
  coverage_pct : ℚ
  total_unique : Nat

/-- check_vocab_coverage from the source: unique characters of the text
with the space character removed (`text.replace(' ', '')`), the covered
subset (characters present as one-character vocabulary entries), the
missing set difference, sorted lists and statistics. Python sets are
modelled as deduplicated lists; the set difference `unique - covered` is
the filter of the non-members of `covered`. -/
def check_vocab_coverage (text : Str) (vocab : List Str) : CoverageReport :=
  let unique_chars : Str := (text.filter (fun c => c != ' ')).dedup
  let covered : Str := unique_chars.filter (fun ch => decide ([ch] ∈ vocab))
  let missing : Str := unique_chars.filter (fun ch => !(covered.contains ch))
  { covered := sortChars covered
    missing := sortChars missing
    coverage_pct := (covered.length : ℚ) / (max unique_chars.length 1) * 100
    total_unique := unique_chars.length }

/-- Modelled from the spec: the set of "unique characters of the text
with whitespace excluded" named by the claim, with whitespace read as
Python whitespace. Used only to compare the claim's phrasing against the
code, which removes the space character alone. -/
def uniqueNonWhitespaceChars (text : Str) : Finset Char :=
  (text.filter (fun c => !(pyIsSpace c))).toFinset

/-- C7 counterexample: on the text [a, tab] with an empty vocabulary, the
tab character — whitespace for Python — lands in the missing set, so
covered ∪ missing is not the set of unique characters with whitespace
excluded: the code removes only the space character U+0020, not all
whitespace. -/
theorem coverage_partition_cex :
    '\t' ∈ (check_vocab_coverage ['a', '\t'] []).missing
    ∧ pyIsSpace '\t' = true
    ∧ ((check_vocab_coverage ['a', '\t'] []).covered.toFinset
        ∪ (check_vocab_coverage ['a', '\t'] []).missing.toFinset
          ≠ uniqueNonWhitespaceChars ['a', '\t']) := by decide

/-- C7 amended: for every text and vocabulary, the covered and missing
sets of check_vocab_coverage are disjoint and their union is the set of
unique characters of the text with the space character (not all
whitespace) excluded. -/
theorem coverage_partition (text : Str) (vocab : List Str) :
    (check_vocab_coverage text vocab).covered.toFinset
        ∩ (check_vocab_coverage text vocab).missing.toFinset = ∅
    ∧ (check_vocab_coverage text vocab).covered.toFinset
        ∪ (check_vocab_coverage text vocab).missing.toFinset
          = (text.filter (fun c => c != ' ')).toFinset := by
  constructor
  · ext a
    simp only [check_vocab_coverage, Finset.mem_inter, List.mem_toFinset,
      mem_sortChars, List.mem_filter, Bool.not_eq_true',
      Finset.not_mem_empty, iff_false]
    rintro ⟨⟨ha1, ha2⟩, hb1, hb2⟩
    rw [Bool.eq_false_iff] at hb2
    exact hb2 (List.elem_iff.mpr (List.mem_filter.mpr ⟨ha1, ha2⟩))
  · ext a
    simp only [check_vocab_coverage, Finset.mem_union, List.mem_toFinset,
      mem_sortChars, List.mem_filter, List.mem_dedup,
      Bool.not_eq_true']
    constructor
    · rintro (⟨h1, _⟩ | ⟨h1, _⟩) <;> exact h1
    · intro h1
      by_cases hv : ([a] : Str) ∈ vocab
      · exact Or.inl ⟨h1, by simpa using hv⟩
      · refine Or.inr ⟨h1, ?_⟩
        rw [Bool.eq_false_iff]
        intro hc
        have := List.mem_filter.mp (List.elem_iff.mp hc)
        simp [hv] at this
